import Mathlib

/-
Shallow embedding of `src/utils/image_utils.py`, centred on the figure-panel
composer `generate_heatmap_fig` (and the Python call semantics of its mutable
default argument `minmax=[]`).

Modelling decisions, each traceable to the source:
* Data values are rationals (`ℚ`); the `np.inf` / `-np.inf` sentinels that the
  source uses to initialise the per-panel `vmin` / `vmax` accumulators are
  modelled by the extended type `XQ` below.  No arithmetic other than
  comparisons, `min` / `max` and `np.clip(·, 0, None)` is ever performed on
  these values, so rationals are an exact model of the floats that occur.
* A panel is its rank after `torch.squeeze` together with the flattened list
  of its data values.  Only the squeezed rank and (for rank-2 panels) the
  flattened values are ever inspected by the source.  For rank-3 panels the
  source applies the fixed inverse normalisation and a channel reorder before
  `imshow`; no claim observes the transformed colour values, so the stored
  data list is carried through unchanged.
* The plotting library is opaque (per the repository's own scope): rendering
  one panel is recorded as a `PanelOut` event, and whether the renderer raises
  inside a panel's drawing call is an oracle `renderFails : Nat → Bool`.  The
  `try`/bare-`except` placement of the source is reproduced exactly: the
  `sns.heatmap` call (and the `colorbars[idx]` lookup within the same `try`)
  is guarded, the `imshow` call for rank-3 panels is not.
* Python exceptions are `Except Err`: the explicit
  `raise Exception("Tried to plot image with dims!=2 && dims!=3")` is
  `Err.unsupportedRank`; an out-of-range `colorbars[idx]` / `centers[idx]` /
  `labels[idx]` subscript outside any `try` is `Err.indexError`; an error
  raised by `imshow` (unguarded) is `Err.renderError`.
-/

deriving instance DecidableEq for Except

/-- Extended rationals: the value space of the `vmin` / `vmax` bookkeeping in
`generate_heatmap_fig`, with the `np.inf` (`pinf`) and `-np.inf` (`ninf`)
sentinels the source initialises its accumulators with. -/
inductive XQ where
  | ninf : XQ
  | fin : ℚ → XQ
  | pinf : XQ
  deriving DecidableEq, Repr

/-- Order on `XQ` matching the IEEE comparisons the source performs
(`-inf < finite < inf`; no NaN ever arises in the source's computations). -/
def xle : XQ → XQ → Bool
  | .ninf, _ => true
  | _, .pinf => true
  | .fin a, .fin b => decide (a ≤ b)
  | .pinf, _ => false
  | .fin _, .ninf => false

/-- Binary minimum on `XQ` (as computed by `np.min` on a pair). -/
def xmin (a b : XQ) : XQ := if xle a b then a else b

/-- Binary maximum on `XQ` (as computed by `np.max` / Python `max` on a pair). -/
def xmax (a b : XQ) : XQ := if xle a b then b else a

/-- `np.min(np.append(l, np.inf))`: minimum of the flattened data with the
`vmin = np.inf` sentinel appended, as in line 70 of the source. -/
def xminList (l : List ℚ) : XQ :=
  l.foldr (fun q acc => xmin (XQ.fin q) acc) XQ.pinf

/-- `np.max(np.append(l, -np.inf))`: maximum of the flattened data with the
`vmax = -np.inf` sentinel appended, as in line 71 of the source. -/
def xmaxList (l : List ℚ) : XQ :=
  l.foldr (fun q acc => xmax (XQ.fin q) acc) XQ.ninf

/-- `np.clip(x, 0, None)`: clip a value to be non-negative (lines 104-105). -/
def clip0 (x : XQ) : XQ := xmax x (XQ.fin 0)

/-- One input image of `generate_heatmap_fig`: its rank after squeezing
size-1 axes and its flattened data values. -/
structure Panel where
  rank : Nat
  data : List ℚ
  deriving DecidableEq, Repr

/-- Python exceptions that can escape `generate_heatmap_fig`. -/
inductive Err where
  | unsupportedRank : Err
  | indexError : Err
  | renderError : Err
  deriving DecidableEq, Repr

/-- The observable rendering event for one panel of the composite figure:
a heatmap with its `vmin` / `vmax` / colormap / `cbar` keyword (`none` when
the `colorbars` argument was `None` and the keyword is not set), a plain
raster image (`imshow`), or a panel skipped by the bare `except`. -/
inductive PanelOut where
  | heatmap (vmin vmax : Option XQ) (cmap : String) (cbar : Option Bool) : PanelOut
  | image : PanelOut
  | skipped : PanelOut
  deriving DecidableEq, Repr

/-- The observable result of a successful `generate_heatmap_fig` call:
the width ratios, the `minmax` list as it stands after the call (the caller's
list object, possibly extended by the auto-compute path), and the per-panel
rendering events of the second loop, in order. -/
structure FigResult where
  ratios : List ℚ
  minmaxOut : List (XQ × XQ)
  panels : List PanelOut
  deriving DecidableEq, Repr

/-- `if centers == None: centers = [None for _ in range(len(img_tensors))]`
(line 52-53 of the source). -/
def normCenters (panels : List Panel) (cs : Option (List (Option ℚ))) :
    List (Option ℚ) :=
  match cs with
  | none => panels.map (fun _ => none)
  | some l => l

/-- Body of the first loop of `generate_heatmap_fig` (lines 56-84) for one
panel at index `i`, given the running global maximum `g`: produces the width
ratio appended to `ratios`, the `(vmin, vmax)` pair appended to `minmax` when
auto-computing, and the updated global maximum; or the exception the loop body
raises. -/
def panelStep (cb : Option (List Bool)) (centers : List (Option ℚ))
    (i : Nat) (p : Panel) (g : XQ) : Except Err (ℚ × (XQ × XQ) × XQ) :=
  if p.rank = 2 then
    -- `if colorbars is not None and colorbars[idx] == False: ratios.append(1)
    --  else: ratios.append(1.25)` — the subscript can raise IndexError.
    match cb with
    | none =>
      match centers[i]? with
      | none => .error .indexError
      | some c =>
        match c with
        | none =>
          .ok (Rat.divInt 5 4, (xminList p.data, xmaxList p.data),
               xmax (xmaxList p.data) g)
        | some _ => .ok (Rat.divInt 5 4, (XQ.pinf, XQ.ninf), g)
    | some l =>
      match l[i]? with
      | none => .error .indexError
      | some b =>
        let r : ℚ := if b = false then 1 else Rat.divInt 5 4
        match centers[i]? with
        | none => .error .indexError
        | some c =>
          match c with
          | none =>
            .ok (r, (xminList p.data, xmaxList p.data),
                 xmax (xmaxList p.data) g)
          | some _ => .ok (r, (XQ.pinf, XQ.ninf), g)
  else if p.rank = 3 then
    -- rgb branch: `ratios.append(1)`, `vmin` / `vmax` keep their sentinels,
    -- the global maximum is not touched.
    .ok (1, (XQ.pinf, XQ.ninf), g)
  else
    -- `raise Exception("Tried to plot image with dims!=2 && dims!=3")`
    .error .unsupportedRank

/-- The first loop of `generate_heatmap_fig` (lines 56-84): walks the panels
from index `i` threading the global maximum `g`, returning the ratio list, the
`(rank, data)` entries appended to `imgs`, the auto-computed `(vmin, vmax)`
entries, and the final global maximum. -/
def phase1 (cb : Option (List Bool)) (centers : List (Option ℚ)) :
    Nat → XQ → List Panel →
    Except Err (List ℚ × List (Nat × List ℚ) × List (XQ × XQ) × XQ)
  | _, g, [] => .ok ([], [], [], g)
  | i, g, p :: rest =>
    match panelStep cb centers i p g with
    | .error e => .error e
    | .ok (r, en, g2) =>
      match phase1 cb centers (i+1) g2 rest with
      | .error e => .error e
      | .ok (rs, ims, ms, gf) =>
        .ok (r :: rs, (p.rank, p.data) :: ims, en :: ms, gf)

/-- The scale and colormap chosen for a rank-2 panel by lines 92-106 of the
source: a centered panel gets `vmin = vmax = None` and the diverging
colormap; a non-centered panel under `align_scales` gets `(0, g_vmax)`; and
otherwise its `minmax` entry clipped to non-negative, with the sequential
colormap. -/
def scaleOf (align : Bool) (g : XQ) (mm : XQ × XQ) (c : Option ℚ) :
    Option XQ × Option XQ × String :=
  match c with
  | some _ => (none, none, "coolwarm")
  | none =>
    if align then (some (XQ.fin 0), some g, "viridis")
    else (some (clip0 mm.1), some (clip0 mm.2), "viridis")

/-- Body of the second loop of `generate_heatmap_fig` (lines 88-118) for the
zipped entry at index `i`, after the `labels[idx]` title lookup has succeeded:
the rank-2 branch chooses the scale and colormap (lines 92-106), then runs the
guarded `colorbars[idx]` lookup and `sns.heatmap` call (lines 107-115, bare
`except` turning any failure into a skip); the other ranks run the unguarded
`imshow` (lines 116-118). -/
def renderOut (align : Bool) (g : XQ) (cb : Option (List Bool))
    (rf : Nat → Bool) (i : Nat) (nd : Nat) (mm : XQ × XQ) (c : Option ℚ) :
    Except Err PanelOut :=
  if nd = 2 then
    let s := scaleOf align g mm c
    match cb with
    | none =>
      if rf i then .ok .skipped
      else .ok (.heatmap s.1 s.2.1 s.2.2 none)
    | some l =>
      match l[i]? with
      | none => .ok .skipped
      | some b =>
        if rf i then .ok .skipped
        else .ok (.heatmap s.1 s.2.1 s.2.2 (some b))
  else
    if rf i then .error .renderError else .ok .image

/-- The second loop of `generate_heatmap_fig` (lines 88-118) over the zipped
`(img, minmax-entry, center)` triples starting at index `i`; the unguarded
`labels[idx]` subscript of `set_title` is checked first. -/
def phase2 (labels : List String) (cb : Option (List Bool)) (align : Bool)
    (g : XQ) (rf : Nat → Bool) :
    Nat → List ((Nat × List ℚ) × ((XQ × XQ) × Option ℚ)) →
    Except Err (List PanelOut)
  | _, [] => .ok []
  | i, (im, (mm, c)) :: rest =>
    match labels[i]? with
    | none => .error .indexError
    | some _ =>
      match renderOut align g cb rf i im.1 mm c with
      | .error e => .error e
      | .ok po =>
        match phase2 labels cb align g rf (i+1) rest with
        | .error e => .error e
        | .ok pos => .ok (po :: pos)

/-- `generate_heatmap_fig(img_tensors, labels, centers, minmax, align_scales,
colorbars)` (lines 46-121 of `src/utils/image_utils.py`), with the renderer's
per-panel failure behaviour abstracted as the oracle `rf`.  The source decides
`calculate_minmax = len(minmax) == 0` up front and appends one entry per panel
to the very `minmax` list it was given; the list used by the second loop (and
visible to the caller afterwards) is therefore the appended list on the
auto-compute path and the unchanged input otherwise. -/
def generate_heatmap_fig (panels : List Panel) (labels : List String)
    (cs : Option (List (Option ℚ))) (minmax : List (XQ × XQ))
    (align : Bool) (cb : Option (List Bool)) (rf : Nat → Bool) :
    Except Err FigResult :=
  let centers := normCenters panels cs
  match phase1 cb centers 0 (XQ.fin 0) panels with
  | .error e => .error e
  | .ok (rs, ims, comp, g) =>
    let mm := if minmax.isEmpty then comp else minmax
    match phase2 labels cb align g rf 0 (ims.zip (mm.zip centers)) with
    | .error e => .error e
    | .ok outs => .ok ⟨rs, mm, outs⟩

/-- Python call semantics of the mutable default argument `minmax=[]`:
a call that omits `minmax` receives the one default-list object `dflt`, and
the `minmax.append` calls of the auto-compute path mutate that object in
place, so the next call omitting `minmax` sees the mutated list.  For a
successful call the list afterwards is exactly `minmaxOut`; the pair returned
is (call result, default-list object after the call). -/
def callWithDefaultMinmax (dflt : List (XQ × XQ)) (panels : List Panel)
    (labels : List String) (cs : Option (List (Option ℚ))) (align : Bool)
    (cb : Option (List Bool)) (rf : Nat → Bool) :
    Except Err FigResult × List (XQ × XQ) :=
  match generate_heatmap_fig panels labels cs dflt align cb rf with
  | .ok res => (.ok res, res.minmaxOut)
  | .error e => (.error e, dflt)

/-- Whether an exception escaped the call. -/
def exceptOk {α : Type} : Except Err α → Bool
  | .ok _ => true
  | .error _ => false

/-- The rendering events of a call, `[]` when the call raised. -/
def resultPanels : Except Err FigResult → List PanelOut
  | .ok r => r.panels
  | .error _ => []

/-- The `minmax` list exposed after a call, `[]` when the call raised. -/
def resultMinmax : Except Err FigResult → List (XQ × XQ)
  | .ok r => r.minmaxOut
  | .error _ => []

/-- The `(vmin, vmax)` entry the auto-compute path appends for a rank-2 panel
with the given center: the data minimum and maximum for a non-centered panel,
the untouched `(np.inf, -np.inf)` sentinels for a centered one. -/
def entryOf (p : Panel) (c : Option ℚ) : XQ × XQ :=
  match c with
  | none => (xminList p.data, xmaxList p.data)
  | some _ => (XQ.pinf, XQ.ninf)

/-- The width ratio the first loop appends for a rank-2 panel at index `i`
(`1` exactly when `colorbars` was supplied and `colorbars[idx] == False`,
`1.25` otherwise); the out-of-range case never occurs on a successful call. -/
def ratioScalar (cb : Option (List Bool)) (i : Nat) : ℚ :=
  match cb with
  | none => Rat.divInt 5 4
  | some l =>
    match l[i]? with
    | some b => if b = false then 1 else Rat.divInt 5 4
    | none => Rat.divInt 5 4

/-- Whether the panel at index `i` requests a colorbar: the `cbar` keyword the
source passes to `sns.heatmap` is `colorbars[idx]` when `colorbars` is
supplied, and the keyword is left unset otherwise — in which case seaborn's
default draws the colorbar. -/
def requestsColorbar (cb : Option (List Bool)) (i : Nat) : Bool :=
  match cb with
  | none => true
  | some l => l.getD i true

/-- One step of the running global maximum `g_vmax = max(vmax, g_vmax)`:
updated only by rank-2 panels whose center is `None`. -/
def gStep (centers : List (Option ℚ)) (i : Nat) (p : Panel) (g : XQ) : XQ :=
  if p.rank = 2 then
    match centers[i]? with
    | some none => xmax (xmaxList p.data) g
    | _ => g
  else g

/-- The running global maximum accumulated by the first loop from index `i`. -/
def gAcc (centers : List (Option ℚ)) : Nat → XQ → List Panel → XQ
  | _, g, [] => g
  | i, g, p :: rest => gAcc centers (i+1) (gStep centers i p g) rest

/-- The maximum data value across the non-centered rank-2 panels from index
`i` (`-np.inf` when there is none): the quantity claim C2 speaks about. -/
def pmaxAcross (centers : List (Option ℚ)) : Nat → List Panel → XQ
  | _, [] => XQ.ninf
  | i, p :: rest =>
    xmax
      (if p.rank = 2 then
        match centers[i]? with
        | some none => xmaxList p.data
        | _ => XQ.ninf
       else XQ.ninf)
      (pmaxAcross centers (i+1) rest)

/-- The rendering event `renderOut` produces when it does not raise: the
value of the guarded rank-2 branch, and `image` otherwise. -/
def renderPure (align : Bool) (g : XQ) (cb : Option (List Bool))
    (rf : Nat → Bool) (i : Nat) (nd : Nat) (mm : XQ × XQ) (c : Option ℚ) :
    PanelOut :=
  if nd = 2 then
    let s := scaleOf align g mm c
    match cb with
    | none =>
      if rf i then .skipped
      else .heatmap s.1 s.2.1 s.2.2 none
    | some l =>
      match l[i]? with
      | none => .skipped
      | some b =>
        if rf i then .skipped
        else .heatmap s.1 s.2.1 s.2.2 (some b)
  else .image

theorem xle_refl (a : XQ) : xle a a = true := by
  cases a <;> simp [xle]

theorem xle_trans {a b c : XQ} (h1 : xle a b = true) (h2 : xle b c = true) :
    xle a c = true := by
  cases a <;> cases b <;> cases c <;> simp_all [xle]
  exact le_trans h1 h2

theorem xle_total (a b : XQ) : xle a b = true ∨ xle b a = true := by
  cases a <;> cases b <;> simp [xle]
  exact le_total _ _

theorem xle_antisymm {a b : XQ} (h1 : xle a b = true) (h2 : xle b a = true) :
    a = b := by
  cases a <;> cases b <;> simp_all [xle]
  exact le_antisymm h1 h2

theorem xle_xmax_left (a b : XQ) : xle a (xmax a b) = true := by
  unfold xmax; split
  · assumption
  · exact xle_refl a

theorem xle_xmax_right (a b : XQ) : xle b (xmax a b) = true := by
  unfold xmax; split
  · exact xle_refl b
  · rename_i h
    rcases xle_total a b with h2 | h2
    · exact absurd h2 h
    · exact h2

theorem xmax_le {a b c : XQ} (h1 : xle a c = true) (h2 : xle b c = true) :
    xle (xmax a b) c = true := by
  unfold xmax; split <;> assumption

theorem xmax_comm (a b : XQ) : xmax a b = xmax b a := by
  apply xle_antisymm
  · exact xmax_le (xle_xmax_right b a) (xle_xmax_left b a)
  · exact xmax_le (xle_xmax_right a b) (xle_xmax_left a b)

theorem xmax_assoc (a b c : XQ) : xmax (xmax a b) c = xmax a (xmax b c) := by
  apply xle_antisymm
  · apply xmax_le
    · apply xmax_le
      · exact xle_xmax_left a (xmax b c)
      · exact xle_trans (xle_xmax_left b c) (xle_xmax_right a (xmax b c))
    · exact xle_trans (xle_xmax_right b c) (xle_xmax_right a (xmax b c))
  · apply xmax_le
    · exact xle_trans (xle_xmax_left a b) (xle_xmax_left (xmax a b) c)
    · apply xmax_le
      · exact xle_trans (xle_xmax_right a b) (xle_xmax_left (xmax a b) c)
      · exact xle_xmax_right (xmax a b) c

theorem xmax_ninf (a : XQ) : xmax XQ.ninf a = a := by
  cases a <;> simp [xmax, xle]

theorem xmin_le_left (a b : XQ) : xle (xmin a b) a = true := by
  unfold xmin; split
  · exact xle_refl a
  · rename_i h
    rcases xle_total a b with h2 | h2
    · exact absurd h2 h
    · exact h2

theorem xmin_le_right (a b : XQ) : xle (xmin a b) b = true := by
  unfold xmin; split
  · assumption
  · exact xle_refl b

theorem xminList_cons (x : ℚ) (xs : List ℚ) :
    xminList (x :: xs) = xmin (XQ.fin x) (xminList xs) := rfl

theorem xmaxList_cons (x : ℚ) (xs : List ℚ) :
    xmaxList (x :: xs) = xmax (XQ.fin x) (xmaxList xs) := rfl

theorem xminList_le {q : ℚ} {l : List ℚ} (h : q ∈ l) :
    xle (xminList l) (XQ.fin q) = true := by
  induction l with
  | nil => cases h
  | cons x xs ih =>
    rw [xminList_cons]
    rcases List.mem_cons.mp h with h1 | h1
    · subst h1; exact xmin_le_left _ _
    · exact xle_trans (xmin_le_right _ _) (ih h1)

theorem le_xmaxList {q : ℚ} {l : List ℚ} (h : q ∈ l) :
    xle (XQ.fin q) (xmaxList l) = true := by
  induction l with
  | nil => cases h
  | cons x xs ih =>
    rw [xmaxList_cons]
    rcases List.mem_cons.mp h with h1 | h1
    · subst h1; exact xle_xmax_left _ _
    · exact xle_trans (ih h1) (xle_xmax_right _ _)

theorem xminList_mem (l : List ℚ) :
    xminList l = XQ.pinf ∨ ∃ a, xminList l = XQ.fin a ∧ a ∈ l := by
  induction l with
  | nil => exact Or.inl rfl
  | cons x xs ih =>
    rw [xminList_cons]
    rcases ih with h | ⟨a, ha, hmem⟩
    · rw [h]
      exact Or.inr ⟨x, by simp [xmin, xle], List.mem_cons_self x xs⟩
    · rw [ha]
      unfold xmin
      split
      · exact Or.inr ⟨x, rfl, List.mem_cons_self x xs⟩
      · exact Or.inr ⟨a, rfl, List.mem_cons_of_mem x hmem⟩

theorem xmaxList_mem (l : List ℚ) :
    xmaxList l = XQ.ninf ∨ ∃ a, xmaxList l = XQ.fin a ∧ a ∈ l := by
  induction l with
  | nil => exact Or.inl rfl
  | cons x xs ih =>
    rw [xmaxList_cons]
    rcases ih with h | ⟨a, ha, hmem⟩
    · rw [h, xmax_comm, xmax_ninf]
      exact Or.inr ⟨x, rfl, List.mem_cons_self x xs⟩
    · rw [ha]
      unfold xmax
      split
      · exact Or.inr ⟨a, rfl, List.mem_cons_of_mem x hmem⟩
      · exact Or.inr ⟨x, rfl, List.mem_cons_self x xs⟩

theorem xle_fin {a b : ℚ} : xle (XQ.fin a) (XQ.fin b) = true ↔ a ≤ b := by
  simp [xle]

theorem elemIsSome_of_lt {α : Type} {l : List α} {j : Nat}
    (h : j < l.length) : (l[j]?).isSome = true := by
  cases hg : l[j]? with
  | none => rw [List.getElem?_eq_none_iff] at hg; omega
  | some a => rfl

theorem panelStep_ok {cb : Option (List Bool)} {centers : List (Option ℚ)}
    {i : Nat} {p : Panel} {g : XQ} {r : ℚ} {en : XQ × XQ} {g2 : XQ}
    (h : panelStep cb centers i p g = .ok (r, en, g2)) :
    (p.rank = 2 ∨ p.rank = 3) ∧ g2 = gStep centers i p g ∧
    (p.rank = 2 →
      ∃ c, centers[i]? = some c ∧ en = entryOf p c ∧
        r = ratioScalar cb i ∧
        (∀ l, cb = some l → (l[i]?).isSome = true)) ∧
    (p.rank ≠ 2 → en = (XQ.pinf, XQ.ninf) ∧ r = 1 ∧ g2 = g) := by
  by_cases h2 : p.rank = 2
  · rw [panelStep.eq_def, if_pos h2] at h
    refine ⟨Or.inl h2, ?_⟩
    cases cb with
    | none =>
      cases hc : centers[i]? with
      | none => simp [hc] at h
      | some c =>
        simp only [hc] at h
        cases c with
        | none =>
          simp only [Except.ok.injEq, Prod.mk.injEq] at h
          exact ⟨by simp [gStep, h2, hc, ← h.2.2],
            fun _ => ⟨none, rfl, by simp [entryOf, ← h.2.1],
              by simp [ratioScalar, ← h.1], fun l hl => by cases hl⟩,
            fun hn => absurd h2 hn⟩
        | some cv =>
          simp only [Except.ok.injEq, Prod.mk.injEq] at h
          exact ⟨by simp [gStep, h2, hc, ← h.2.2],
            fun _ => ⟨some cv, rfl, by simp [entryOf, ← h.2.1],
              by simp [ratioScalar, ← h.1], fun l hl => by cases hl⟩,
            fun hn => absurd h2 hn⟩
    | some l =>
      cases hb : l[i]? with
      | none => simp [hb] at h
      | some b =>
        simp only [hb] at h
        cases hc : centers[i]? with
        | none => simp [hc] at h
        | some c =>
          simp only [hc] at h
          cases c with
          | none =>
            simp only [Except.ok.injEq, Prod.mk.injEq] at h
            exact ⟨by simp [gStep, h2, hc, ← h.2.2],
              fun _ => ⟨none, rfl, by simp [entryOf, ← h.2.1],
                by simp [ratioScalar, hb, ← h.1],
                fun l2 hl => by injection hl with hl2; subst hl2; simp [hb]⟩,
              fun hn => absurd h2 hn⟩
          | some cv =>
            simp only [Except.ok.injEq, Prod.mk.injEq] at h
            exact ⟨by simp [gStep, h2, hc, ← h.2.2],
              fun _ => ⟨some cv, rfl, by simp [entryOf, ← h.2.1],
                by simp [ratioScalar, hb, ← h.1],
                fun l2 hl => by injection hl with hl2; subst hl2; simp [hb]⟩,
              fun hn => absurd h2 hn⟩
  · rw [panelStep.eq_def, if_neg h2] at h
    by_cases h3 : p.rank = 3
    · rw [if_pos h3] at h
      simp only [Except.ok.injEq, Prod.mk.injEq] at h
      exact ⟨Or.inr h3, by simp [gStep, h2, ← h.2.2], fun hx => absurd hx h2,
        fun _ => ⟨h.2.1.symm, h.1.symm, h.2.2.symm⟩⟩
    · rw [if_neg h3] at h; cases h

theorem panelStep_exists {cb : Option (List Bool)} {centers : List (Option ℚ)}
    {i : Nat} {p : Panel} {g : XQ}
    (hrank : p.rank = 2 ∨ p.rank = 3)
    (hcb : ∀ l, cb = some l → (l[i]?).isSome = true)
    (hcen : (centers[i]?).isSome = true) :
    ∃ out, panelStep cb centers i p g = .ok out := by
  cases hres : panelStep cb centers i p g with
  | ok out => exact ⟨out, rfl⟩
  | error e =>
    exfalso
    rw [panelStep.eq_def] at hres
    rcases hrank with h2 | h3
    · rw [if_pos h2] at hres
      cases cb with
      | none =>
        cases hc : centers[i]? with
        | none => rw [hc] at hcen; cases hcen
        | some c => simp only [hc] at hres; cases c <;> cases hres
      | some l =>
        cases hb : l[i]? with
        | none => have hx := hcb l rfl; rw [hb] at hx; cases hx
        | some b =>
          simp only [hb] at hres
          cases hc : centers[i]? with
          | none => rw [hc] at hcen; cases hcen
          | some c => simp only [hc] at hres; cases c <;> cases hres
    · have h2 : ¬ p.rank = 2 := by omega
      rw [if_neg h2, if_pos h3] at hres
      cases hres

theorem phase1_sound {cb : Option (List Bool)} {centers : List (Option ℚ)} :
    ∀ {i : Nat} {g : XQ} {ps : List Panel} {rs : List ℚ}
      {ims : List (Nat × List ℚ)} {ms : List (XQ × XQ)} {gf : XQ},
    phase1 cb centers i g ps = .ok (rs, ims, ms, gf) →
    rs.length = ps.length ∧ ims.length = ps.length ∧
    ms.length = ps.length ∧ gf = gAcc centers i g ps ∧
    ∀ j p, ps[j]? = some p →
      ims[j]? = some (p.rank, p.data) ∧ (p.rank = 2 ∨ p.rank = 3) ∧
      (p.rank = 2 →
        ∃ c, centers[i + j]? = some c ∧
          ms[j]? = some (entryOf p c) ∧
          rs[j]? = some (ratioScalar cb (i + j)) ∧
          (∀ l, cb = some l → (l[i + j]?).isSome = true)) ∧
      (p.rank ≠ 2 →
        ms[j]? = some (XQ.pinf, XQ.ninf) ∧ rs[j]? = some 1) := by
  intro i g ps
  induction ps generalizing i g with
  | nil =>
    intro rs ims ms gf h
    rw [phase1] at h
    simp only [Except.ok.injEq, Prod.mk.injEq] at h
    obtain ⟨h1, h2, h3, h4⟩ := h
    subst h1; subst h2; subst h3; subst h4
    exact ⟨rfl, rfl, rfl, rfl, fun j p hj => by cases hj⟩
  | cons p rest ih =>
    intro rs ims ms gf h
    rw [phase1] at h
    cases hs : panelStep cb centers i p g with
    | error e => simp [hs] at h
    | ok trip =>
      obtain ⟨r, en, g2⟩ := trip
      simp only [hs] at h
      cases hrec : phase1 cb centers (i+1) g2 rest with
      | error e => simp [hrec] at h
      | ok out =>
        obtain ⟨rs2, ims2, ms2, gf2⟩ := out
        simp only [hrec] at h
        simp only [Except.ok.injEq, Prod.mk.injEq] at h
        obtain ⟨h1, h2, h3, h4⟩ := h
        subst h1; subst h2; subst h3; subst h4
        obtain ⟨ih1, ih2, ih3, ih4, ih5⟩ := ih hrec
        obtain ⟨hpo1, hpo2, hpo3, hpo4⟩ := panelStep_ok hs
        refine ⟨by simp [ih1], by simp [ih2], by simp [ih3], ?_, ?_⟩
        · rw [show gAcc centers i g (p :: rest) =
              gAcc centers (i+1) (gStep centers i p g) rest from rfl,
            ← hpo2]
          exact ih4
        · intro j q hj
          cases j with
          | zero =>
            rw [List.getElem?_cons_zero] at hj
            injection hj with hj; subst hj
            refine ⟨by simp, hpo1, ?_, ?_⟩
            · intro hq2
              obtain ⟨c, hc, he, hr, hcb⟩ := hpo3 hq2
              exact ⟨c, by rwa [Nat.add_zero], by simp [he],
                by simp [hr], fun l hl => by rw [Nat.add_zero]; exact hcb l hl⟩
            · intro hq2
              obtain ⟨he, hr, _⟩ := hpo4 hq2
              exact ⟨by simp [he], by simp [hr]⟩
          | succ n =>
            rw [List.getElem?_cons_succ] at hj
            obtain ⟨ha, hb, hc, hd⟩ := ih5 n q hj
            have harith : i + 1 + n = i + (n + 1) := by omega
            rw [harith] at hc
            exact ⟨by simpa using ha, hb,
              fun hq2 => by
                obtain ⟨c, hc1, hc2, hc3, hc4⟩ := hc hq2
                exact ⟨c, hc1, by simpa using hc2, by simpa using hc3, hc4⟩,
              fun hq2 => by
                obtain ⟨hd1, hd2⟩ := hd hq2
                exact ⟨by simpa using hd1, by simpa using hd2⟩⟩

theorem phase1_exists {cb : Option (List Bool)} {centers : List (Option ℚ)} :
    ∀ {i : Nat} {g : XQ} {ps : List Panel},
    (∀ (j : Nat) (p : Panel), ps[j]? = some p → p.rank = 2 ∨ p.rank = 3) →
    (∀ l, cb = some l → ∀ j, j < ps.length → (l[i + j]?).isSome = true) →
    (∀ j, j < ps.length → (centers[i + j]?).isSome = true) →
    ∃ out, phase1 cb centers i g ps = .ok out := by
  intro i g ps
  induction ps generalizing i g with
  | nil => exact fun _ _ _ => ⟨_, rfl⟩
  | cons p rest ih =>
    intro hrank hcb hcen
    obtain ⟨trip, hs⟩ := panelStep_exists (g := g)
      (hrank 0 p (by simp))
      (fun l hl => by simpa using hcb l hl 0 (by simp))
      (by simpa using hcen 0 (by simp))
    obtain ⟨r, en, g2⟩ := trip
    obtain ⟨out2, hrec⟩ := ih (i := i + 1) (g := g2)
      (fun j q hj => hrank (j+1) q (by simpa using hj))
      (fun l hl j hj => by
        have := hcb l hl (j+1) (by simpa using Nat.succ_lt_succ hj)
        rwa [show i + (j+1) = i + 1 + j from by omega] at this)
      (fun j hj => by
        have := hcen (j+1) (by simpa using Nat.succ_lt_succ hj)
        rwa [show i + (j+1) = i + 1 + j from by omega] at this)
    obtain ⟨rs2, ims2, ms2, gf2⟩ := out2
    exact ⟨(r :: rs2, (p.rank, p.data) :: ims2, en :: ms2, gf2),
      by simp only [phase1, hs, hrec]⟩

theorem phase1_badrank {cb : Option (List Bool)} {centers : List (Option ℚ)} :
    ∀ {i : Nat} {g : XQ} {ps : List Panel},
    (∀ l, cb = some l → ∀ j, j < ps.length → (l[i + j]?).isSome = true) →
    (∀ j, j < ps.length → (centers[i + j]?).isSome = true) →
    (∃ (j : Nat) (p : Panel), ps[j]? = some p ∧ p.rank ≠ 2 ∧ p.rank ≠ 3) →
    phase1 cb centers i g ps = .error .unsupportedRank := by
  intro i g ps
  induction ps generalizing i g with
  | nil =>
    rintro _ _ ⟨j, p, hj, _, _⟩
    rw [List.getElem?_nil] at hj
    cases hj
  | cons p rest ih =>
    rintro hcb hcen ⟨j, q, hj, hq2, hq3⟩
    by_cases hbad : p.rank ≠ 2 ∧ p.rank ≠ 3
    · have hstep : panelStep cb centers i p g = .error .unsupportedRank := by
        rw [panelStep.eq_def, if_neg hbad.1, if_neg hbad.2]
      simp only [phase1, hstep]
    · have hrank : p.rank = 2 ∨ p.rank = 3 := by
        by_cases h2 : p.rank = 2
        · exact Or.inl h2
        · exact Or.inr (by rcases not_and_or.mp hbad with h | h <;> omega)
      obtain ⟨trip, hs⟩ := panelStep_exists (g := g) hrank
        (fun l hl => by simpa using hcb l hl 0 (by simp))
        (by simpa using hcen 0 (by simp))
      obtain ⟨r, en, g2⟩ := trip
      have hjn : ∃ n, j = n + 1 := by
        cases j with
        | zero =>
          rw [List.getElem?_cons_zero] at hj
          injection hj with hj; subst hj
          rcases hrank with h | h
          · exact absurd h hq2
          · exact absurd h hq3
        | succ n => exact ⟨n, rfl⟩
      obtain ⟨n, rfl⟩ := hjn
      rw [List.getElem?_cons_succ] at hj
      have hrec : phase1 cb centers (i+1) g2 rest = .error .unsupportedRank := by
        apply ih
        · intro l hl j2 hj2
          have := hcb l hl (j2+1) (by simpa using Nat.succ_lt_succ hj2)
          rwa [show i + (j2+1) = i + 1 + j2 from by omega] at this
        · intro j2 hj2
          have := hcen (j2+1) (by simpa using Nat.succ_lt_succ hj2)
          rwa [show i + (j2+1) = i + 1 + j2 from by omega] at this
        · exact ⟨n, q, hj, hq2, hq3⟩
      simp only [phase1, hs, hrec]

theorem lt_of_elem_some {α : Type} {l : List α} {j : Nat} {a : α}
    (h : l[j]? = some a) : j < l.length := by
  by_contra hc
  rw [List.getElem?_eq_none (by omega)] at h
  cases h

theorem renderOut_eq {align : Bool} {g : XQ} {cb : Option (List Bool)}
    {rf : Nat → Bool} {i nd : Nat} {mm : XQ × XQ} {c : Option ℚ}
    (h : nd = 2 ∨ rf i = false) :
    renderOut align g cb rf i nd mm c =
      .ok (renderPure align g cb rf i nd mm c) := by
  by_cases h2 : nd = 2
  · rw [renderOut.eq_def, renderPure.eq_def, if_pos h2, if_pos h2]
    cases cb with
    | none => by_cases hrf : rf i = true <;> simp [hrf]
    | some l =>
      cases hb : l[i]? with
      | none => simp [hb]
      | some b => by_cases hrf : rf i = true <;> simp [hb, hrf]
  · have hrf : rf i = false := h.resolve_left h2
    rw [renderOut.eq_def, renderPure.eq_def, if_neg h2, if_neg h2, hrf]
    simp

theorem renderOut_ok {align : Bool} {g : XQ} {cb : Option (List Bool)}
    {rf : Nat → Bool} {i nd : Nat} {mm : XQ × XQ} {c : Option ℚ}
    {po : PanelOut}
    (h : renderOut align g cb rf i nd mm c = .ok po) :
    po = renderPure align g cb rf i nd mm c := by
  by_cases h2 : nd = 2
  · rw [renderOut_eq (Or.inl h2)] at h
    injection h with h
    exact h.symm
  · cases hrf : rf i with
    | false =>
      rw [renderOut_eq (Or.inr hrf)] at h
      injection h with h
      exact h.symm
    | true =>
      rw [renderOut.eq_def, if_neg h2, hrf] at h
      simp at h

theorem phase2_sound {labels : List String} {cb : Option (List Bool)}
    {align : Bool} {g : XQ} {rf : Nat → Bool} :
    ∀ {i : Nat} {zs : List ((Nat × List ℚ) × ((XQ × XQ) × Option ℚ))}
      {outs : List PanelOut},
    phase2 labels cb align g rf i zs = .ok outs →
    outs.length = zs.length ∧
    ∀ (j : Nat) (x : (Nat × List ℚ) × ((XQ × XQ) × Option ℚ)),
      zs[j]? = some x →
      outs[j]? = some (renderPure align g cb rf (i + j) x.1.1 x.2.1 x.2.2) := by
  intro i zs
  induction zs generalizing i with
  | nil =>
    intro outs h
    rw [phase2] at h
    injection h with h
    subst h
    exact ⟨rfl, fun j x hj => by simp at hj⟩
  | cons hd tl ih =>
    intro outs h
    obtain ⟨⟨nd, dat⟩, ⟨mm, c⟩⟩ := hd
    rw [phase2] at h
    cases hlab : labels[i]? with
    | none => simp [hlab] at h
    | some s =>
      simp only [hlab] at h
      cases hro : renderOut align g cb rf i nd mm c with
      | error e => simp [hro] at h
      | ok po =>
        simp only [hro] at h
        cases hrec : phase2 labels cb align g rf (i+1) tl with
        | error e => simp [hrec] at h
        | ok pos2 =>
          simp only [hrec] at h
          injection h with h
          subst h
          obtain ⟨ihl, ihs⟩ := ih hrec
          refine ⟨by simp [ihl], ?_⟩
          intro j x hj
          cases j with
          | zero =>
            rw [List.getElem?_cons_zero] at hj
            injection hj with hj; subst hj
            simp only [List.getElem?_cons_zero, Nat.add_zero]
            rw [renderOut_ok hro]
          | succ n =>
            rw [List.getElem?_cons_succ] at hj ⊢
            have hres := ihs n x hj
            rwa [show i + 1 + n = i + (n + 1) from by omega] at hres

theorem phase2_exists {labels : List String} {cb : Option (List Bool)}
    {align : Bool} {g : XQ} {rf : Nat → Bool} :
    ∀ {i : Nat} {zs : List ((Nat × List ℚ) × ((XQ × XQ) × Option ℚ))},
    (∀ j, j < zs.length → (labels[i + j]?).isSome = true) →
    (∀ (j : Nat) (x : (Nat × List ℚ) × ((XQ × XQ) × Option ℚ)),
      zs[j]? = some x → x.1.1 ≠ 2 → rf (i + j) = false) →
    ∃ outs, phase2 labels cb align g rf i zs = .ok outs := by
  intro i zs
  induction zs generalizing i with
  | nil => exact fun _ _ => ⟨[], by rw [phase2]⟩
  | cons hd tl ih =>
    intro hlab hcol
    obtain ⟨⟨nd, dat⟩, ⟨mm, c⟩⟩ := hd
    have hl0 := hlab 0 (by simp)
    rw [Nat.add_zero] at hl0
    cases hlabeq : labels[i]? with
    | none => rw [hlabeq] at hl0; cases hl0
    | some s =>
      have hro : renderOut align g cb rf i nd mm c =
          .ok (renderPure align g cb rf i nd mm c) := by
        by_cases h2 : nd = 2
        · exact renderOut_eq (Or.inl h2)
        · refine renderOut_eq (Or.inr ?_)
          have hx := hcol 0 ⟨⟨nd, dat⟩, ⟨mm, c⟩⟩ (by simp) h2
          rwa [Nat.add_zero] at hx
      obtain ⟨outs2, hrec⟩ := ih (i := i + 1)
        (fun j hj => by
          have hx := hlab (j+1) (by simpa using Nat.succ_lt_succ hj)
          rwa [show i + (j+1) = i + 1 + j from by omega] at hx)
        (fun j x hj hx2 => by
          have hx := hcol (j+1) x (by simpa using hj) hx2
          rwa [show i + (j+1) = i + 1 + j from by omega] at hx)
      exact ⟨renderPure align g cb rf i nd mm c :: outs2,
        by simp only [phase2, hlabeq, hro, hrec]⟩

theorem gStep_eq_xmax (centers : List (Option ℚ)) (i : Nat) (p : Panel)
    (g : XQ) :
    gStep centers i p g =
      xmax (if p.rank = 2 then
              match centers[i]? with
              | some none => xmaxList p.data
              | _ => XQ.ninf
            else XQ.ninf) g := by
  unfold gStep
  by_cases h2 : p.rank = 2
  · rw [if_pos h2, if_pos h2]
    cases hc : centers[i]? with
    | none => simp [xmax_ninf]
    | some c =>
      cases c with
      | none => rfl
      | some cv => simp [xmax_ninf]
  · rw [if_neg h2, if_neg h2, xmax_ninf]

theorem gAcc_eq_pmax (centers : List (Option ℚ)) :
    ∀ (i : Nat) (g : XQ) (ps : List Panel),
    gAcc centers i g ps = xmax (pmaxAcross centers i ps) g := by
  intro i g ps
  induction ps generalizing i g with
  | nil => rw [gAcc, pmaxAcross, xmax_ninf]
  | cons p rest ih =>
    rw [gAcc, pmaxAcross, ih, gStep_eq_xmax, ← xmax_assoc,
      xmax_comm (pmaxAcross centers (i+1) rest)]

theorem gen_ok_spec {panels : List Panel} {labels : List String}
    {cs : Option (List (Option ℚ))} {minmax : List (XQ × XQ)} {align : Bool}
    {cb : Option (List Bool)} {rf : Nat → Bool} {res : FigResult}
    (h : generate_heatmap_fig panels labels cs minmax align cb rf = .ok res) :
    ∃ rs ims comp g,
      phase1 cb (normCenters panels cs) 0 (XQ.fin 0) panels =
        .ok (rs, ims, comp, g) ∧
      res.ratios = rs ∧
      res.minmaxOut = (if minmax.isEmpty then comp else minmax) ∧
      phase2 labels cb align g rf 0
        (ims.zip (res.minmaxOut.zip (normCenters panels cs))) =
        .ok res.panels := by
  simp only [generate_heatmap_fig] at h
  cases h1 : phase1 cb (normCenters panels cs) 0 (XQ.fin 0) panels with
  | error e => simp only [h1] at h; cases h
  | ok out =>
    obtain ⟨rs, ims, comp, g⟩ := out
    simp only [h1] at h
    cases h2 : phase2 labels cb align g rf 0
        (ims.zip ((if minmax.isEmpty then comp else minmax).zip
          (normCenters panels cs))) with
    | error e => simp only [h2] at h; cases h
    | ok outs =>
      simp only [h2] at h
      injection h with h
      subst h
      exact ⟨rs, ims, comp, g, rfl, rfl, rfl, h2⟩

theorem gen_exists {panels : List Panel} {labels : List String}
    {cs : Option (List (Option ℚ))} {minmax : List (XQ × XQ)} {align : Bool}
    {cb : Option (List Bool)} {rf : Nat → Bool}
    (hrank : ∀ (j : Nat) (p : Panel), panels[j]? = some p →
      p.rank = 2 ∨ p.rank = 3)
    (hcb : ∀ l, cb = some l → panels.length ≤ l.length)
    (hcen : ∀ cl, cs = some cl → panels.length ≤ cl.length)
    (hlab : panels.length ≤ labels.length)
    (hcol : ∀ (j : Nat) (p : Panel), panels[j]? = some p → p.rank ≠ 2 →
      rf j = false) :
    ∃ res, generate_heatmap_fig panels labels cs minmax align cb rf =
      .ok res := by
  have hcenlen : panels.length ≤ (normCenters panels cs).length := by
    cases cs with
    | none => simp [normCenters]
    | some cl => simpa [normCenters] using hcen cl rfl
  obtain ⟨out, h1⟩ := @phase1_exists cb
    (normCenters panels cs) 0 (XQ.fin 0)
    panels hrank
    (fun l hl j hj => by
      rw [Nat.zero_add]
      exact elemIsSome_of_lt (lt_of_lt_of_le hj (hcb l hl)))
    (fun j hj => by
      rw [Nat.zero_add]
      exact elemIsSome_of_lt (lt_of_lt_of_le hj hcenlen))
  obtain ⟨rs, ims, comp, g⟩ := out
  obtain ⟨hl1, hl2, hl3, hg, hidx⟩ := phase1_sound h1
  have hzlen : (ims.zip ((if minmax.isEmpty then comp else minmax).zip
      (normCenters panels cs))).length ≤ ims.length := by
    rw [List.length_zip]; omega
  obtain ⟨outs, h2⟩ := @phase2_exists labels cb
    align g rf 0
    (ims.zip ((if minmax.isEmpty then comp else minmax).zip
      (normCenters panels cs)))
    (fun j hj => by
      rw [Nat.zero_add]
      exact elemIsSome_of_lt (by omega))
    (fun j x hj hx => by
      rw [Nat.zero_add]
      obtain ⟨hx1, hx23⟩ := List.getElem?_zip_eq_some.mp hj
      have hjp : j < panels.length := by
        have := lt_of_elem_some hx1; omega
      cases hp : panels[j]? with
      | none => rw [List.getElem?_eq_none_iff] at hp; omega
      | some p =>
        obtain ⟨him, _, _, _⟩ := hidx j p hp
        rw [him] at hx1
        injection hx1 with hx1
        refine hcol j p hp ?_
        rw [← hx1] at hx
        exact fun hpr => hx (by rw [hpr]))
  exact ⟨⟨rs, if minmax.isEmpty then comp else minmax, outs⟩,
    by simp only [generate_heatmap_fig, h1, h2]⟩

theorem rendered_spec {panels : List Panel} {labels : List String}
    {cs : Option (List (Option ℚ))} {minmax : List (XQ × XQ)} {align : Bool}
    {cb : Option (List Bool)} {rf : Nat → Bool} {res : FigResult} {j : Nat}
    {po : PanelOut}
    (h : generate_heatmap_fig panels labels cs minmax align cb rf = .ok res)
    (hout : res.panels[j]? = some po) :
    ∃ (p : Panel) (mmj : XQ × XQ) (cj : Option ℚ),
      panels[j]? = some p ∧
      res.minmaxOut[j]? = some mmj ∧
      (normCenters panels cs)[j]? = some cj ∧
      po = renderPure align
        (gAcc (normCenters panels cs) 0 (XQ.fin 0) panels) cb rf j
        p.rank mmj cj ∧
      (p.rank = 2 ∨ p.rank = 3) ∧
      (p.rank = 2 →
        (∀ l, cb = some l → (l[j]?).isSome = true) ∧
        (minmax.isEmpty = true → mmj = entryOf p cj)) ∧
      (p.rank ≠ 2 → minmax.isEmpty = true → mmj = (XQ.pinf, XQ.ninf)) := by
  obtain ⟨rs, ims, comp, g, h1, hrat, hmm, h2⟩ := gen_ok_spec h
  obtain ⟨hl1, hl2, hl3, hg, hidx⟩ := phase1_sound h1
  obtain ⟨hol, hos⟩ := phase2_sound h2
  have hjz : j < (ims.zip (res.minmaxOut.zip
      (normCenters panels cs))).length := by
    have := lt_of_elem_some hout
    omega
  cases hz : (ims.zip (res.minmaxOut.zip (normCenters panels cs)))[j]? with
  | none => rw [List.getElem?_eq_none_iff] at hz; omega
  | some x =>
    obtain ⟨hx1, hx23⟩ := List.getElem?_zip_eq_some.mp hz
    obtain ⟨hx2, hx3⟩ := List.getElem?_zip_eq_some.mp hx23
    have hjp : j < panels.length := by
      have := lt_of_elem_some hx1; omega
    cases hp : panels[j]? with
    | none => rw [List.getElem?_eq_none_iff] at hp; omega
    | some p =>
      obtain ⟨him, hrank23, hr2, hr3⟩ := hidx j p hp
      rw [Nat.zero_add] at hr2
      have hx1' : x.1 = (p.rank, p.data) := by
        rw [him] at hx1
        injection hx1 with hx1
        exact hx1.symm
      have hpo := hos j x hz
      rw [hout, Nat.zero_add] at hpo
      injection hpo with hpo
      refine ⟨p, x.2.1, x.2.2, rfl, hx2, hx3, ?_, hrank23, ?_, ?_⟩
      · rw [hpo, hx1', ← hg]
      · intro hrank2
        obtain ⟨c, hc, hms, hrs, hcbs⟩ := hr2 hrank2
        refine ⟨hcbs, ?_⟩
        intro hemp
        rw [hemp, if_pos rfl] at hmm
        rw [hmm] at hx2
        rw [hms] at hx2
        injection hx2 with hx2
        rw [hc] at hx3
        injection hx3 with hx3
        rw [← hx2, hx3]
      · intro hn2 hemp
        obtain ⟨hms, _⟩ := hr3 hn2
        rw [hemp, if_pos rfl] at hmm
        rw [hmm] at hx2
        rw [hms] at hx2
        injection hx2 with hx2
        exact hx2.symm

theorem renderPure_heatmap {align : Bool} {g : XQ} {cb : Option (List Bool)}
    {rf : Nat → Bool} {i nd : Nat} {mm : XQ × XQ} {c : Option ℚ}
    {vm vx : Option XQ} {cm : String} {cbf : Option Bool}
    (h : PanelOut.heatmap vm vx cm cbf = renderPure align g cb rf i nd mm c) :
    nd = 2 ∧ vm = (scaleOf align g mm c).1 ∧
    vx = (scaleOf align g mm c).2.1 ∧ cm = (scaleOf align g mm c).2.2 := by
  by_cases h2 : nd = 2
  · rw [renderPure.eq_def, if_pos h2] at h
    refine ⟨h2, ?_⟩
    cases cb with
    | none =>
      cases hrf : rf i with
      | true => simp [hrf] at h
      | false =>
        simp [hrf] at h
        exact ⟨h.1, h.2.1, h.2.2.1⟩
    | some l =>
      cases hb : l[i]? with
      | none => simp [hb] at h
      | some b =>
        cases hrf : rf i with
        | true => simp [hb, hrf] at h
        | false =>
          simp [hb, hrf] at h
          exact ⟨h.1, h.2.1, h.2.2.1⟩
  · rw [renderPure.eq_def, if_neg h2] at h
    cases h

theorem renderPure_skipped {align : Bool} {g : XQ} {cb : Option (List Bool)}
    {rf : Nat → Bool} {i : Nat} {mm : XQ × XQ} {c : Option ℚ}
    (hrf : rf i = true) :
    renderPure align g cb rf i 2 mm c = PanelOut.skipped := by
  rw [renderPure.eq_def, if_pos rfl]
  cases cb with
  | none => simp [hrf]
  | some l =>
    cases hb : l[i]? with
    | none => simp [hb]
    | some b => simp [hb, hrf]

theorem renderPure_not_skipped {align : Bool} {g : XQ}
    {cb : Option (List Bool)} {rf : Nat → Bool} {i nd : Nat} {mm : XQ × XQ}
    {c : Option ℚ}
    (hrf : rf i = false)
    (hcb : ∀ l, cb = some l → (l[i]?).isSome = true) :
    renderPure align g cb rf i nd mm c ≠ PanelOut.skipped := by
  rw [renderPure.eq_def]
  by_cases h2 : nd = 2
  · rw [if_pos h2]
    cases cb with
    | none => simp [hrf]
    | some l =>
      cases hb : l[i]? with
      | none => have hx := hcb l rfl; rw [hb] at hx; cases hx
      | some b => simp [hb, hrf]
  · rw [if_neg h2]
    simp

/-- C1 counterexample: the claim "vmin <= every data value <= vmax after
clipping to non-negative, for every input array including all-negative
arrays" is false on the code.  For the all-negative panel with data
`[-2, -1]` (no explicit range, no center, `align_scales` off), the rendered
scale is `vmin = vmax = 0` after `np.clip(·, 0, None)`, and `vmin = 0` is not
below the data value `-2`. -/
theorem C1_counterexample :
    generate_heatmap_fig [⟨2, [-2, -1]⟩, ⟨2, [3]⟩] ["a", "b"] none []
        false none (fun _ => false) =
      .ok ⟨[Rat.divInt 5 4, Rat.divInt 5 4],
           [(XQ.fin (-2), XQ.fin (-1)), (XQ.fin 3, XQ.fin 3)],
           [.heatmap (some (XQ.fin 0)) (some (XQ.fin 0)) "viridis" none,
            .heatmap (some (XQ.fin 3)) (some (XQ.fin 3)) "viridis" none]⟩ ∧
    (-2 : ℚ) ∈ [(-2 : ℚ), -1] ∧
    xle (XQ.fin 0) (XQ.fin (-2)) = false := by
  decide

/-- C2 counterexample: the claim "under align_scales every non-centered
scalar panel is rendered with vmax equal to the maximum data value across
all such panels" is false on the code when all data are negative: the global
maximum accumulator starts at 0, so both panels below render with
`vmax = 0`, while the maximum data value across the panels is `-1`. -/
theorem C2_counterexample :
    generate_heatmap_fig [⟨2, [-1, -2]⟩, ⟨2, [-3]⟩] ["a", "b"] none []
        true none (fun _ => false) =
      .ok ⟨[Rat.divInt 5 4, Rat.divInt 5 4],
           [(XQ.fin (-2), XQ.fin (-1)), (XQ.fin (-3), XQ.fin (-3))],
           [.heatmap (some (XQ.fin 0)) (some (XQ.fin 0)) "viridis" none,
            .heatmap (some (XQ.fin 0)) (some (XQ.fin 0)) "viridis" none]⟩ ∧
    pmaxAcross (normCenters [⟨2, [-1, -2]⟩, ⟨2, [-3]⟩] none) 0
        [⟨2, [-1, -2]⟩, ⟨2, [-3]⟩] = XQ.fin (-1) ∧
    XQ.fin (0 : ℚ) ≠ XQ.fin (-1) := by
  decide

/-- C3 counterexample: the claim "a non-empty ranges list whose length
differs from the panel count raises a ConfigurationError before any
rendering" is false on the code.  With two panels and a one-entry `minmax`
list the call succeeds (no error of any kind is raised — the source has no
such length check), and the zip in the render loop silently truncates the
composition to a single rendered panel. -/
theorem C3_counterexample :
    generate_heatmap_fig [⟨2, [5]⟩, ⟨2, [7]⟩] ["a", "b"] none
        [(XQ.fin 1, XQ.fin 2)] false none (fun _ => false) =
      .ok ⟨[Rat.divInt 5 4, Rat.divInt 5 4], [(XQ.fin 1, XQ.fin 2)],
           [.heatmap (some (XQ.fin 1)) (some (XQ.fin 2)) "viridis" none]⟩ := by
  decide

/-- C4 (confirmed): round-trip of auto-computed ranges.  If a call with
`minmax = []` succeeds with result `res1`, then a second call with the same
panels and arguments but `minmax := res1.minmaxOut` (the ranges list exposed
by the first call) returns exactly the same result — in particular
bit-identical `vmin` / `vmax` assignments for every panel. -/
theorem C4_roundtrip {panels : List Panel} {labels : List String}
    {cs : Option (List (Option ℚ))} {align : Bool} {cb : Option (List Bool)}
    {rf : Nat → Bool} {res1 : FigResult}
    (h1 : generate_heatmap_fig panels labels cs [] align cb rf = .ok res1) :
    generate_heatmap_fig panels labels cs res1.minmaxOut align cb rf =
      .ok res1 := by
  have h1x := h1
  simp only [generate_heatmap_fig] at h1x ⊢
  cases hp1 : phase1 cb (normCenters panels cs) 0 (XQ.fin 0) panels with
  | error e => simp only [hp1] at h1x; cases h1x
  | ok out =>
    obtain ⟨rs, ims, comp, g⟩ := out
    simp only [hp1] at h1x ⊢
    have he : (if ([] : List (XQ × XQ)).isEmpty then comp else []) = comp :=
      rfl
    rw [he] at h1x
    cases hp2 : phase2 labels cb align g rf 0
        (ims.zip (comp.zip (normCenters panels cs))) with
    | error e => simp only [hp2] at h1x; cases h1x
    | ok outs =>
      simp only [hp2] at h1x
      injection h1x with h1x
      subst h1x
      have hcomp : (if (FigResult.mk rs comp outs).minmaxOut.isEmpty
          then comp else (FigResult.mk rs comp outs).minmaxOut) = comp := by
        cases comp <;> rfl
      rw [hcomp]
      simp only [hp2]

/-- C4 witness: the round-trip theorem applied to two concrete panels. -/
theorem C4_roundtrip_witness :
    generate_heatmap_fig [⟨2, [1, 2]⟩, ⟨2, [3]⟩] ["a", "b"] none
        (FigResult.mk [Rat.divInt 5 4, Rat.divInt 5 4]
          [(XQ.fin 1, XQ.fin 2), (XQ.fin 3, XQ.fin 3)]
          [.heatmap (some (XQ.fin 1)) (some (XQ.fin 2)) "viridis" none,
           .heatmap (some (XQ.fin 3)) (some (XQ.fin 3)) "viridis" none]).minmaxOut
        false none (fun _ => false) =
      .ok (FigResult.mk [Rat.divInt 5 4, Rat.divInt 5 4]
          [(XQ.fin 1, XQ.fin 2), (XQ.fin 3, XQ.fin 3)]
          [.heatmap (some (XQ.fin 1)) (some (XQ.fin 2)) "viridis" none,
           .heatmap (some (XQ.fin 3)) (some (XQ.fin 3)) "viridis" none]) :=
  C4_roundtrip (by decide)

/-- C5 counterexample: the claim "a render failure on any panel, scalar or
color, is absorbed and never propagates" is false on the code: the
`try`/bare-`except` wraps only the `sns.heatmap` call of the rank-2 branch,
while `imshow` for a color panel is unguarded.  With three panels where the
renderer fails on the middle rank-3 panel, the whole call raises. -/
theorem C5_counterexample :
    generate_heatmap_fig [⟨2, [1]⟩, ⟨3, [0]⟩, ⟨2, [2]⟩] ["a", "b", "c"] none
        [] false none (fun i => i == 1) = .error .renderError := by
  decide

/-- C8 (confirmed): if any panel's rank after squeeze is neither 2 nor 3
(and the caller-supplied per-panel lists cover the panels, so no earlier
IndexError fires), the call raises the unsupported-rank exception from the
first loop, and no rendering event is produced at all. -/
theorem C8_badrank {panels : List Panel} {labels : List String}
    {cs : Option (List (Option ℚ))} {minmax : List (XQ × XQ)} {align : Bool}
    {cb : Option (List Bool)} {rf : Nat → Bool} {j : Nat} {p : Panel}
    (hcb : ∀ l, cb = some l → panels.length ≤ l.length)
    (hcen : ∀ cl, cs = some cl → panels.length ≤ cl.length)
    (hp : panels[j]? = some p) (h2 : p.rank ≠ 2) (h3 : p.rank ≠ 3) :
    generate_heatmap_fig panels labels cs minmax align cb rf =
      .error .unsupportedRank ∧
    resultPanels (generate_heatmap_fig panels labels cs minmax align cb rf) =
      [] := by
  have hcenlen : panels.length ≤ (normCenters panels cs).length := by
    cases cs with
    | none => simp [normCenters]
    | some cl => simpa [normCenters] using hcen cl rfl
  have h1 : phase1 cb (normCenters panels cs) 0 (XQ.fin 0) panels =
      .error .unsupportedRank :=
    phase1_badrank
      (fun l hl j2 hj2 => by
        rw [Nat.zero_add]
        exact elemIsSome_of_lt (lt_of_lt_of_le hj2 (hcb l hl)))
      (fun j2 hj2 => by
        rw [Nat.zero_add]
        exact elemIsSome_of_lt (lt_of_lt_of_le hj2 hcenlen))
      ⟨j, p, hp, h2, h3⟩
  have hmain : generate_heatmap_fig panels labels cs minmax align cb rf =
      .error .unsupportedRank := by
    simp only [generate_heatmap_fig, h1]
  exact ⟨hmain, by rw [hmain]; rfl⟩

/-- C8 witness: a valid rank-2 panel next to a rank-4 panel raises the
unsupported-rank exception and produces no rendering event. -/
theorem C8_badrank_witness :
    generate_heatmap_fig [⟨2, [1]⟩, ⟨4, [0]⟩] ["a", "b"] none [] false none
        (fun _ => false) = .error .unsupportedRank ∧
    resultPanels (generate_heatmap_fig [⟨2, [1]⟩, ⟨4, [0]⟩] ["a", "b"] none
        [] false none (fun _ => false)) = [] :=
  C8_badrank (j := 1) (p := ⟨4, [0]⟩)
    (fun l hl => by simp at hl) (fun cl hcl => by simp at hcl)
    (by decide) (by decide) (by decide)

/-- C9 (code bug): the mutable default argument `minmax=[]` does persist
state across calls.  A first call omitting `minmax` appends its computed
ranges to the one shared default-list object; a second call omitting
`minmax` then sees a non-empty list, skips range computation, and renders
with the first call's stale ranges: below, data whose maximum is 9 is
rendered with `vmax = 5` carried over from the earlier call, whereas a fresh
call computes `vmax = 9`. -/
theorem C9_default_minmax_bug :
    (callWithDefaultMinmax
        (callWithDefaultMinmax [] [⟨2, [5, 1]⟩, ⟨2, [2]⟩] ["a", "b"] none
          false none (fun _ => false)).2
        [⟨2, [9, 1]⟩, ⟨2, [2]⟩] ["a", "b"] none false none
        (fun _ => false)).1 =
      .ok ⟨[Rat.divInt 5 4, Rat.divInt 5 4],
           [(XQ.fin 1, XQ.fin 5), (XQ.fin 2, XQ.fin 2)],
           [.heatmap (some (XQ.fin 1)) (some (XQ.fin 5)) "viridis" none,
            .heatmap (some (XQ.fin 2)) (some (XQ.fin 2)) "viridis" none]⟩ ∧
    (callWithDefaultMinmax [] [⟨2, [9, 1]⟩, ⟨2, [2]⟩] ["a", "b"] none false
        none (fun _ => false)).1 =
      .ok ⟨[Rat.divInt 5 4, Rat.divInt 5 4],
           [(XQ.fin 1, XQ.fin 9), (XQ.fin 2, XQ.fin 2)],
           [.heatmap (some (XQ.fin 1)) (some (XQ.fin 9)) "viridis" none,
            .heatmap (some (XQ.fin 2)) (some (XQ.fin 2)) "viridis" none]⟩ := by
  decide

/-- C1 (amended): for an auto-ranged (`minmax = []`), non-aligned call,
every panel rendered as a heatmap with concrete bounds `a` and `b` — which
is exactly the non-centered scalar case — satisfies: every data value is at
most `b`, and `a` is at most every non-negative data value.  After the
clipping to non-negative, `vmin` may exceed negative data values (see the
counterexample), so only the clipped lower bound survives. -/
theorem C1_amended {panels : List Panel} {labels : List String}
    {cs : Option (List (Option ℚ))} {cb : Option (List Bool)}
    {rf : Nat → Bool} {res : FigResult} {j : Nat} {p : Panel} {q : ℚ}
    {a b : XQ} {cm : String} {cbf : Option Bool}
    (hres : generate_heatmap_fig panels labels cs [] false cb rf = .ok res)
    (hp : panels[j]? = some p)
    (hq : q ∈ p.data)
    (hout : res.panels[j]? = some (.heatmap (some a) (some b) cm cbf)) :
    xle (XQ.fin q) b = true ∧ (0 ≤ q → xle a (XQ.fin q) = true) := by
  obtain ⟨p2, mmj, cj, hp2, hmmj, hcj, hpo, hrank, hr2, hr3⟩ :=
    rendered_spec hres hout
  rw [hp] at hp2
  injection hp2 with hp2
  subst hp2
  obtain ⟨hnd, hvm, hvx, hcm⟩ := renderPure_heatmap hpo
  cases cj with
  | some c0 => simp [scaleOf] at hvm
  | none =>
    simp [scaleOf] at hvm hvx
    obtain ⟨hcbs, hent⟩ := hr2 hnd
    have hmment : mmj = entryOf p none := hent rfl
    simp only [entryOf] at hmment
    rw [hmment] at hvm hvx
    constructor
    · rw [hvx]
      exact xle_trans (le_xmaxList hq)
        (xle_xmax_left (xmaxList p.data) (XQ.fin 0))
    · intro h0
      rw [hvm]
      exact xmax_le (xminList_le hq) (xle_fin.mpr h0)

/-- C1 witness: the amended bound property at a concrete mixed input. -/
theorem C1_amended_witness :
    xle (XQ.fin 1) (XQ.fin 2) = true ∧
    (0 ≤ (1 : ℚ) → xle (XQ.fin 1) (XQ.fin 1) = true) :=
  @C1_amended [⟨2, [1, 2]⟩, ⟨2, [3]⟩] ["a", "b"]
    none none (fun _ => false)
    ⟨[Rat.divInt 5 4, Rat.divInt 5 4],
      [(XQ.fin 1, XQ.fin 2), (XQ.fin 3, XQ.fin 3)],
      [.heatmap (some (XQ.fin 1)) (some (XQ.fin 2)) "viridis" none,
       .heatmap (some (XQ.fin 3)) (some (XQ.fin 3)) "viridis" none]⟩
    0 ⟨2, [1, 2]⟩ 1 (XQ.fin 1) (XQ.fin 2)
    "viridis" none
    (by decide) (by decide) (by decide) (by decide)

/-- C2 (amended): under `align_scales`, every panel rendered as a heatmap
with concrete bounds (exactly the non-centered scalar panels) gets
`vmin = 0` and `vmax = max(M, 0)`, where `M` is the maximum data value
across all non-centered scalar panels of the call: the global accumulator
starts at 0, so an all-negative maximum is replaced by 0. -/
theorem C2_amended {panels : List Panel} {labels : List String}
    {cs : Option (List (Option ℚ))} {minmax : List (XQ × XQ)}
    {cb : Option (List Bool)} {rf : Nat → Bool} {res : FigResult} {j : Nat}
    {a b : XQ} {cm : String} {cbf : Option Bool}
    (hres : generate_heatmap_fig panels labels cs minmax true cb rf = .ok res)
    (hout : res.panels[j]? = some (.heatmap (some a) (some b) cm cbf)) :
    a = XQ.fin 0 ∧
    b = xmax (pmaxAcross (normCenters panels cs) 0 panels) (XQ.fin 0) := by
  obtain ⟨p, mmj, cj, hp, hmmj, hcj, hpo, hrank, hr2, hr3⟩ :=
    rendered_spec hres hout
  obtain ⟨hnd, hvm, hvx, hcm2⟩ := renderPure_heatmap hpo
  cases cj with
  | some c0 => simp [scaleOf] at hvm
  | none =>
    simp [scaleOf] at hvm hvx
    exact ⟨hvm, by rw [hvx, gAcc_eq_pmax]⟩

/-- C2 witness: the amended global-scale property at a concrete input whose
global maximum is 5. -/
theorem C2_amended_witness :
    XQ.fin 0 = XQ.fin 0 ∧
    XQ.fin 5 = xmax (pmaxAcross (normCenters [⟨2, [1, 5]⟩, ⟨2, [2]⟩] none) 0
      [⟨2, [1, 5]⟩, ⟨2, [2]⟩]) (XQ.fin 0) :=
  @C2_amended [⟨2, [1, 5]⟩, ⟨2, [2]⟩] ["a", "b"]
    none [] none (fun _ => false)
    ⟨[Rat.divInt 5 4, Rat.divInt 5 4],
      [(XQ.fin 1, XQ.fin 5), (XQ.fin 2, XQ.fin 2)],
      [.heatmap (some (XQ.fin 0)) (some (XQ.fin 5)) "viridis" none,
       .heatmap (some (XQ.fin 0)) (some (XQ.fin 5)) "viridis" none]⟩
    0 (XQ.fin 0) (XQ.fin 5) "viridis" none
    (by decide) (by decide)

/-- C7 (confirmed): a scalar panel whose center is set is always rendered
with `vmin = vmax = None` (symmetric-auto mode) and the diverging
"coolwarm" colormap, for both values of `align_scales` and independently of
the computed global maximum or of any supplied ranges list. -/
theorem C7_centered {panels : List Panel} {labels : List String}
    {cs : Option (List (Option ℚ))} {minmax : List (XQ × XQ)} {align : Bool}
    {cb : Option (List Bool)} {rf : Nat → Bool} {res : FigResult} {j : Nat}
    {c0 : ℚ} {vm vx : Option XQ} {cm : String} {cbf : Option Bool}
    (hres : generate_heatmap_fig panels labels cs minmax align cb rf =
      .ok res)
    (hc : (normCenters panels cs)[j]? = some (some c0))
    (hout : res.panels[j]? = some (.heatmap vm vx cm cbf)) :
    vm = none ∧ vx = none ∧ cm = "coolwarm" := by
  obtain ⟨p, mmj, cj, hp, hmmj, hcj, hpo, _, _, _⟩ :=
    rendered_spec hres hout
  rw [hc] at hcj
  injection hcj with hcj
  obtain ⟨hnd, hvm, hvx, hcm⟩ := renderPure_heatmap hpo
  rw [← hcj] at hvm hvx hcm
  simp [scaleOf] at hvm hvx hcm
  exact ⟨hvm, hvx, hcm⟩

/-- C7 witness: a centered panel under `align_scales = true` still renders
in symmetric-auto mode with the diverging colormap. -/
theorem C7_centered_witness :
    (none : Option XQ) = none ∧ (none : Option XQ) = none ∧
    "coolwarm" = "coolwarm" :=
  @C7_centered [⟨2, [1, 2]⟩, ⟨2, [3]⟩] ["a", "b"]
    (some [some 0, none]) [] true none
    (fun _ => false)
    ⟨[Rat.divInt 5 4, Rat.divInt 5 4],
      [(XQ.pinf, XQ.ninf), (XQ.fin 3, XQ.fin 3)],
      [.heatmap none none "coolwarm" none,
       .heatmap (some (XQ.fin 0)) (some (XQ.fin 3)) "viridis" none]⟩
    0 0 none none "coolwarm"
    none
    (by decide) (by decide) (by decide)

/-- C3 (amended): a caller-supplied non-empty `minmax` list of mismatched
length raises no error at all — the source has no length check and no
ConfigurationError exists.  On otherwise well-formed input the call
succeeds, leaves the ranges list untouched, and the zip of the render loop
silently truncates the composition to min(#panels, #ranges, #centers)
rendered panels. -/
theorem C3_amended {panels : List Panel} {labels : List String}
    {cs : Option (List (Option ℚ))} {minmax : List (XQ × XQ)} {align : Bool}
    {cb : Option (List Bool)} {rf : Nat → Bool}
    (hrank : ∀ (j : Nat) (p : Panel), panels[j]? = some p →
      p.rank = 2 ∨ p.rank = 3)
    (hcb : ∀ l, cb = some l → panels.length ≤ l.length)
    (hcen : ∀ cl, cs = some cl → panels.length ≤ cl.length)
    (hlab : panels.length ≤ labels.length)
    (hcol : ∀ (j : Nat) (p : Panel), panels[j]? = some p → p.rank ≠ 2 →
      rf j = false)
    (hne : minmax ≠ []) :
    exceptOk (generate_heatmap_fig panels labels cs minmax align cb rf) =
      true ∧
    resultMinmax (generate_heatmap_fig panels labels cs minmax align cb rf) =
      minmax ∧
    (resultPanels (generate_heatmap_fig panels labels cs minmax align cb
        rf)).length =
      min panels.length (min minmax.length
        (normCenters panels cs).length) := by
  obtain ⟨res, hres⟩ := gen_exists hrank hcb hcen hlab hcol
  obtain ⟨rs, ims, comp, g, h1, hrat, hmm, h2⟩ := gen_ok_spec hres
  obtain ⟨hl1, hl2, hl3, hg, _⟩ := phase1_sound h1
  obtain ⟨hol, _⟩ := phase2_sound h2
  have hmm2 : res.minmaxOut = minmax := by
    rw [hmm]
    by_cases hq : minmax.isEmpty = true
    · exact absurd (by rwa [List.isEmpty_iff] at hq) hne
    · rw [if_neg hq]
  refine ⟨by rw [hres]; rfl, ?_, ?_⟩
  · rw [hres]
    show res.minmaxOut = minmax
    exact hmm2
  · rw [hres]
    show res.panels.length = _
    rw [hol, List.length_zip, List.length_zip, hl2, hmm2]

/-- C3 witness: the amended truncation property at a two-panel call with a
single-entry ranges list. -/
theorem C3_amended_witness :
    exceptOk (generate_heatmap_fig [⟨2, [5]⟩, ⟨2, [7]⟩] ["a", "b"] none
        [(XQ.fin 1, XQ.fin 2)] false none (fun _ => false)) = true ∧
    resultMinmax (generate_heatmap_fig [⟨2, [5]⟩, ⟨2, [7]⟩] ["a", "b"] none
        [(XQ.fin 1, XQ.fin 2)] false none (fun _ => false)) =
      [(XQ.fin 1, XQ.fin 2)] ∧
    (resultPanels (generate_heatmap_fig [⟨2, [5]⟩, ⟨2, [7]⟩] ["a", "b"] none
        [(XQ.fin 1, XQ.fin 2)] false none (fun _ => false))).length =
      min ([⟨2, [5]⟩, ⟨2, [7]⟩] : List Panel).length
        (min [(XQ.fin 1, XQ.fin 2)].length
          (normCenters [⟨2, [5]⟩, ⟨2, [7]⟩] none).length) :=
  C3_amended
    (fun j p h => by
      have hlt : j < 2 := by simpa using lt_of_elem_some h
      interval_cases j <;> simp at h <;> subst h <;> simp_all)
    (fun l hl => by simp at hl)
    (fun cl hcl => by simp at hcl)
    (by decide)
    (fun j p h hr => rfl)
    (by simp)

/-- C5 (amended): renderer failures are absorbed only for scalar panels.
On well-formed input where the renderer fails on no color panel, the call
succeeds; a failing scalar panel's slot is `skipped`, while every panel
whose render call does not fail is rendered, not skipped.  (A failure
during a color panel's `imshow` propagates instead — see the
counterexample.) -/
theorem C5_amended {panels : List Panel} {labels : List String}
    {cs : Option (List (Option ℚ))} {minmax : List (XQ × XQ)} {align : Bool}
    {cb : Option (List Bool)} {rf : Nat → Bool} {j k : Nat} {p pk : Panel}
    (hrank : ∀ (j2 : Nat) (p2 : Panel), panels[j2]? = some p2 →
      p2.rank = 2 ∨ p2.rank = 3)
    (hcb : ∀ l, cb = some l → panels.length ≤ l.length)
    (hcen : ∀ cl, cs = some cl → panels.length ≤ cl.length)
    (hlab : panels.length ≤ labels.length)
    (hcol : ∀ (j2 : Nat) (p2 : Panel), panels[j2]? = some p2 →
      p2.rank ≠ 2 → rf j2 = false)
    (hmmlen : minmax = [] ∨ panels.length ≤ minmax.length)
    (hp : panels[j]? = some p) (hj2 : p.rank = 2) (hjf : rf j = true)
    (hk : panels[k]? = some pk) (hkf : rf k = false) :
    exceptOk (generate_heatmap_fig panels labels cs minmax align cb rf) =
      true ∧
    (resultPanels (generate_heatmap_fig panels labels cs minmax align cb
        rf))[j]? = some PanelOut.skipped ∧
    (resultPanels (generate_heatmap_fig panels labels cs minmax align cb
        rf))[k]? ≠ some PanelOut.skipped := by
  obtain ⟨res, hres⟩ := gen_exists hrank hcb hcen hlab hcol
  obtain ⟨rs, ims, comp, g, h1, hrat, hmm, h2⟩ := gen_ok_spec hres
  obtain ⟨hl1, hl2, hl3, hg, hidx⟩ := phase1_sound h1
  obtain ⟨hol, hos⟩ := phase2_sound h2
  have hcenlen : panels.length ≤ (normCenters panels cs).length := by
    cases cs with
    | none => simp [normCenters]
    | some cl => simpa [normCenters] using hcen cl rfl
  have hmoutlen : panels.length ≤ res.minmaxOut.length := by
    rw [hmm]
    by_cases hq : minmax.isEmpty = true
    · rw [if_pos hq]; omega
    · rw [if_neg hq]
      rcases hmmlen with he | hle
      · subst he; exact absurd rfl hq
      · exact hle
  have hzlen : (ims.zip (res.minmaxOut.zip
      (normCenters panels cs))).length = panels.length := by
    rw [List.length_zip, List.length_zip, hl2]
    omega
  have hjlt := lt_of_elem_some hp
  have hklt := lt_of_elem_some hk
  refine ⟨by rw [hres]; rfl, ?_, ?_⟩
  · rw [hres]
    show res.panels[j]? = some PanelOut.skipped
    cases hz : (ims.zip (res.minmaxOut.zip
        (normCenters panels cs)))[j]? with
    | none => rw [List.getElem?_eq_none_iff] at hz; omega
    | some x =>
      have hx := hos j x hz
      rw [Nat.zero_add] at hx
      obtain ⟨hx1, _⟩ := List.getElem?_zip_eq_some.mp hz
      obtain ⟨him, _, _, _⟩ := hidx j p hp
      rw [him] at hx1
      injection hx1 with hx1
      have hxr : x.1.1 = p.rank := by rw [← hx1]
      rw [hxr, hj2] at hx
      rw [hx, renderPure_skipped hjf]
  · rw [hres]
    show res.panels[k]? ≠ some PanelOut.skipped
    cases hz : (ims.zip (res.minmaxOut.zip
        (normCenters panels cs)))[k]? with
    | none => rw [List.getElem?_eq_none_iff] at hz; omega
    | some x =>
      have hx := hos k x hz
      rw [Nat.zero_add] at hx
      rw [hx]
      intro hcontra
      injection hcontra with hcontra
      exact renderPure_not_skipped hkf
        (fun l hl => elemIsSome_of_lt (lt_of_lt_of_le hklt (hcb l hl)))
        hcontra

/-- C5 witness: with a renderer failure on the first (scalar) panel of
three, the call succeeds, that panel is skipped, and the third panel is
still rendered. -/
theorem C5_amended_witness :
    exceptOk (generate_heatmap_fig [⟨2, [1]⟩, ⟨3, [0]⟩, ⟨2, [2]⟩]
        ["a", "b", "c"] none [] false none (fun i => i == 0)) = true ∧
    (resultPanels (generate_heatmap_fig [⟨2, [1]⟩, ⟨3, [0]⟩, ⟨2, [2]⟩]
        ["a", "b", "c"] none [] false none (fun i => i == 0)))[0]? =
      some PanelOut.skipped ∧
    (resultPanels (generate_heatmap_fig [⟨2, [1]⟩, ⟨3, [0]⟩, ⟨2, [2]⟩]
        ["a", "b", "c"] none [] false none (fun i => i == 0)))[2]? ≠
      some PanelOut.skipped :=
  @C5_amended [⟨2, [1]⟩, ⟨3, [0]⟩, ⟨2, [2]⟩] ["a", "b", "c"] none []
    false none (fun i => i == 0) 0 2 ⟨2, [1]⟩ ⟨2, [2]⟩
    (fun j2 p2 h => by
      have hlt : j2 < 3 := by simpa using lt_of_elem_some h
      interval_cases j2 <;> simp at h <;> subst h <;> simp_all)
    (fun l hl => by simp at hl)
    (fun cl hcl => by simp at hcl)
    (by decide)
    (fun j2 p2 h hr => by
      have hlt : j2 < 3 := by simpa using lt_of_elem_some h
      interval_cases j2 <;> simp at h <;> subst h <;> simp_all)
    (Or.inl rfl)
    (by decide) (by decide) (by decide) (by decide) (by decide)

/-- C6 (confirmed): the width ratio assigned to each panel is 1.25 exactly
when the panel requests a colorbar (`colorbars[idx]` when `colorbars` is
supplied, else seaborn's default of drawing one) and 1 otherwise, and
rank-3 color panels always get ratio 1 — in particular, with no colorbar
flags supplied every scalar panel gets 1.25. -/
theorem C6_width {panels : List Panel} {labels : List String}
    {cs : Option (List (Option ℚ))} {minmax : List (XQ × XQ)} {align : Bool}
    {cb : Option (List Bool)} {rf : Nat → Bool} {res : FigResult} {j : Nat}
    {p : Panel}
    (hres : generate_heatmap_fig panels labels cs minmax align cb rf =
      .ok res)
    (hp : panels[j]? = some p) :
    res.ratios[j]? =
      some (if p.rank = 2 then
              (if requestsColorbar cb j then Rat.divInt 5 4 else 1)
            else 1) := by
  obtain ⟨rs, ims, comp, g, h1, hrat, hmm, h2⟩ := gen_ok_spec hres
  obtain ⟨hl1, hl2, hl3, hg, hidx⟩ := phase1_sound h1
  obtain ⟨him, hrank, hr2, hr3⟩ := hidx j p hp
  rw [hrat]
  by_cases h2r : p.rank = 2
  · obtain ⟨c, hc, hms, hrs, hcbs⟩ := hr2 h2r
    rw [Nat.zero_add] at hrs hcbs
    rw [hrs, if_pos h2r]
    congr 1
    cases cb with
    | none => rfl
    | some l =>
      have hsome := hcbs l rfl
      cases hb : l[j]? with
      | none => rw [hb] at hsome; cases hsome
      | some bb =>
        cases bb <;> simp [ratioScalar, requestsColorbar, hb]
  · obtain ⟨hms, hrs⟩ := hr3 h2r
    rw [hrs, if_neg h2r]

/-- C6 witness: with `colorbars = [False, True]`, the scalar panel that
declines its colorbar gets ratio 1. -/
theorem C6_width_witness :
    (FigResult.mk [1, 1] [(XQ.fin 1, XQ.fin 1), (XQ.pinf, XQ.ninf)]
      [.heatmap (some (XQ.fin 1)) (some (XQ.fin 1)) "viridis" (some false),
       .image]).ratios[0]? =
      some (if (Panel.mk 2 [1]).rank = 2 then
              (if requestsColorbar (some [false, true]) 0 then Rat.divInt 5 4
               else 1)
            else 1) :=
  @C6_width [⟨2, [1]⟩, ⟨3, [0]⟩] ["a", "b"]
    none [] false (some [false, true])
    (fun _ => false)
    (FigResult.mk [1, 1] [(XQ.fin 1, XQ.fin 1), (XQ.pinf, XQ.ninf)]
      [.heatmap (some (XQ.fin 1)) (some (XQ.fin 1)) "viridis" (some false),
       .image])
    0 ⟨2, [1]⟩
    (by decide) (by decide)

/-- C10 (confirmed): when ranges are auto-computed, centered scalar panels
and rank-3 color panels are recorded with the `(np.inf, -np.inf)` sentinel
pair in the exposed ranges list, and any finite `(a, b)` entry belongs to a
non-centered rank-2 panel and is exactly its (data minimum, data maximum). -/
theorem C10_entries {panels : List Panel} {labels : List String}
    {cs : Option (List (Option ℚ))} {align : Bool} {cb : Option (List Bool)}
    {rf : Nat → Bool} {res : FigResult} {j : Nat} {p : Panel}
    (hres : generate_heatmap_fig panels labels cs [] align cb rf = .ok res)
    (hp : panels[j]? = some p) :
    (p.rank ≠ 2 → res.minmaxOut[j]? = some (XQ.pinf, XQ.ninf)) ∧
    (∀ c0 : ℚ, (normCenters panels cs)[j]? = some (some c0) →
      res.minmaxOut[j]? = some (XQ.pinf, XQ.ninf)) ∧
    (∀ a b : ℚ, res.minmaxOut[j]? = some (XQ.fin a, XQ.fin b) →
      p.rank = 2 ∧ (normCenters panels cs)[j]? = some none ∧
      a ∈ p.data ∧ b ∈ p.data ∧ ∀ q ∈ p.data, a ≤ q ∧ q ≤ b) := by
  obtain ⟨rs, ims, comp, g, h1, hrat, hmm, h2⟩ := gen_ok_spec hres
  obtain ⟨hl1, hl2, hl3, hg, hidx⟩ := phase1_sound h1
  obtain ⟨him, hrank, hr2, hr3⟩ := hidx j p hp
  have hmm2 : res.minmaxOut = comp := by rw [hmm]; rfl
  refine ⟨?_, ?_, ?_⟩
  · intro hn2
    obtain ⟨hms, _⟩ := hr3 hn2
    rw [hmm2, hms]
  · intro c0 hc
    by_cases h2r : p.rank = 2
    · obtain ⟨c, hcen, hms, _, _⟩ := hr2 h2r
      rw [Nat.zero_add] at hcen
      rw [hc] at hcen
      injection hcen with hcen
      rw [hmm2, hms, ← hcen]
      rfl
    · obtain ⟨hms, _⟩ := hr3 h2r
      rw [hmm2, hms]
  · intro a b hab
    by_cases h2r : p.rank = 2
    · obtain ⟨c, hcen, hms, _, _⟩ := hr2 h2r
      rw [Nat.zero_add] at hcen
      rw [hmm2, hms] at hab
      injection hab with hab
      cases c with
      | some c0 => simp [entryOf] at hab
      | none =>
        simp only [entryOf] at hab
        have hmin : xminList p.data = XQ.fin a := congrArg Prod.fst hab
        have hmax : xmaxList p.data = XQ.fin b := congrArg Prod.snd hab
        refine ⟨h2r, hcen, ?_, ?_, ?_⟩
        · rcases xminList_mem p.data with hx | ⟨a2, ha2, hmem⟩
          · rw [hx] at hmin; cases hmin
          · rw [ha2] at hmin
            injection hmin with hmin
            rw [← hmin]
            exact hmem
        · rcases xmaxList_mem p.data with hx | ⟨b2, hb2, hmem⟩
          · rw [hx] at hmax; cases hmax
          · rw [hb2] at hmax
            injection hmax with hmax
            rw [← hmax]
            exact hmem
        · intro q hqm
          constructor
          · have hle := xminList_le hqm
            rw [hmin] at hle
            exact xle_fin.mp hle
          · have hle := le_xmaxList hqm
            rw [hmax] at hle
            exact xle_fin.mp hle
    · obtain ⟨hms, _⟩ := hr3 h2r
      rw [hmm2, hms] at hab
      injection hab with hab
      have hfst := congrArg Prod.fst hab
      cases hfst

/-- C10 witness: the entry classification at a concrete mixed call — a
non-centered scalar panel next to a color panel. -/
theorem C10_entries_witness :
    ((Panel.mk 2 [2, 7]).rank ≠ 2 →
      (FigResult.mk [Rat.divInt 5 4, 1]
        [(XQ.fin 2, XQ.fin 7), (XQ.pinf, XQ.ninf)]
        [.heatmap (some (XQ.fin 2)) (some (XQ.fin 7)) "viridis" none,
         .image]).minmaxOut[0]? = some (XQ.pinf, XQ.ninf)) ∧
    (∀ c0 : ℚ, (normCenters [⟨2, [2, 7]⟩, ⟨3, [0]⟩] none)[0]? =
        some (some c0) →
      (FigResult.mk [Rat.divInt 5 4, 1]
        [(XQ.fin 2, XQ.fin 7), (XQ.pinf, XQ.ninf)]
        [.heatmap (some (XQ.fin 2)) (some (XQ.fin 7)) "viridis" none,
         .image]).minmaxOut[0]? = some (XQ.pinf, XQ.ninf)) ∧
    (∀ a b : ℚ, (FigResult.mk [Rat.divInt 5 4, 1]
        [(XQ.fin 2, XQ.fin 7), (XQ.pinf, XQ.ninf)]
        [.heatmap (some (XQ.fin 2)) (some (XQ.fin 7)) "viridis" none,
         .image]).minmaxOut[0]? = some (XQ.fin a, XQ.fin b) →
      (Panel.mk 2 [2, 7]).rank = 2 ∧
      (normCenters [⟨2, [2, 7]⟩, ⟨3, [0]⟩] none)[0]? = some none ∧
      a ∈ (Panel.mk 2 [2, 7]).data ∧ b ∈ (Panel.mk 2 [2, 7]).data ∧
      ∀ q ∈ (Panel.mk 2 [2, 7]).data, a ≤ q ∧ q ≤ b) :=
  @C10_entries [⟨2, [2, 7]⟩, ⟨3, [0]⟩] ["a", "b"]
    none false none (fun _ => false)
    (FigResult.mk [Rat.divInt 5 4, 1]
      [(XQ.fin 2, XQ.fin 7), (XQ.pinf, XQ.ninf)]
      [.heatmap (some (XQ.fin 2)) (some (XQ.fin 7)) "viridis" none,
       .image])
    0 ⟨2, [2, 7]⟩
    (by decide) (by decide)
